import Mathlib

/-!
Verification of the ray-tracing core in `src/cpp/ray-tracing/main.cpp`
(spensbot/Interview-Prep).

The file shallowly embeds the program.  Scalars (C++ `double`) are modelled
as `ℚ`; every arithmetic step the embedded code performs is exact in the
source, except where noted in a definition's doc comment.  Code that lives
in headers not present in the repository snapshot (`hittable_list.h`,
`material.h`, `camera.h`, `timer.h`, `vec3.h`) is represented abstractly:
either as a field of an environment record, or by a definition whose doc
comment starts with `Modelled from the spec:`.
-/

namespace RT

/-- A 3-vector with rational components, modelling `vec3` / `color` /
`point3` from the numeric library (`vec3.h`). -/
structure Vec3 where
  x : ℚ
  y : ℚ
  z : ℚ
  deriving DecidableEq, Repr

/-- Componentwise product, modelling `operator*(vec3, vec3)` used for
`attenuation * ray_color(...)` and `color::random() * color::random()`. -/
def Vec3.cmul (a b : Vec3) : Vec3 := ⟨a.x * b.x, a.y * b.y, a.z * b.z⟩

/-- Componentwise sum, modelling `operator+(vec3, vec3)`. -/
def Vec3.cadd (a b : Vec3) : Vec3 := ⟨a.x + b.x, a.y + b.y, a.z + b.z⟩

/-- Scalar multiple, modelling `operator*(double, vec3)`. -/
def Vec3.csmul (k : ℚ) (a : Vec3) : Vec3 := ⟨k * a.x, k * a.y, k * a.z⟩

/-- The value `color(0, 0, 0)`, the black colour returned by `ray_color` at depth 0
and on scatter failure. -/
def black : Vec3 := ⟨0, 0, 0⟩

/-- A ray: origin plus direction, modelling `ray` from `ray.h`. -/
structure Ray where
  orig : Vec3
  dir : Vec3
  deriving DecidableEq, Repr

/-- The transient intersection record `hit_record`: hit point, outward or
inward surface normal, ray parameter `t`, front-face flag, and an
identifier standing for the `mat_ptr` material pointer. -/
structure HitRec where
  p : Vec3
  normal : Vec3
  t : ℚ
  frontFace : Bool
  mat : ℕ
  deriving DecidableEq, Repr

/-- The collaborators of `ray_color` whose code lives in headers absent
from the snapshot, gathered in one environment record:

* `hit r` models the only call `world.hit(r, 0.001, infinity, rec)` made by
  `ray_color` (`hittable_list::hit`, linear closest-hit scan over the
  scene with `t` restricted to `[0.001, infinity)`); `some rec` is the
  C++ `true` return with `rec` filled in, `none` is `false`.
* `scatter rec r` models the virtual dispatch
  `rec.mat_ptr->scatter(r, rec, attenuation, scattered)`; `some (a, s)` is
  a `true` return writing attenuation `a` and scattered ray `s`, `none` a
  `false` return (absorption).
* `unitVector v` models `unit_vector(v)` from `vec3.h`
  (`Modelled from the spec:` the ray's normalized direction; kept abstract
  because exact normalisation needs a square root). -/
structure RTEnv where
  hit : Ray → Option HitRec
  scatter : HitRec → Ray → Option (Vec3 × Ray)
  unitVector : Vec3 → Vec3

/-- The background colour computed at `main.cpp:54-56`:
`t = 0.5*(unit_direction.y + 1)`, then
`(1-t)*color(1,1,1) + t*color(0.5,0.7,1.0)`. -/
def skyColor (env : RTEnv) (r : Ray) : Vec3 :=
  let unit_direction := env.unitVector r.dir
  let t : ℚ := 1/2 * (unit_direction.y + 1)
  Vec3.cadd (Vec3.csmul (1 - t) ⟨1, 1, 1⟩) (Vec3.csmul t ⟨1/2, 7/10, 1⟩)

/-- The recursive radiance estimator `ray_color` (`main.cpp:36-57`).
Depth is a C++ `int`, modelled as `ℤ`:
if `depth <= 0` return black; if the world is hit, scatter — on success
return `attenuation * ray_color(scattered, world, depth - 1)`, on failure
return black; with no hit return the sky gradient. -/
def rayColor (env : RTEnv) (r : Ray) (depth : ℤ) : Vec3 :=
  if depth ≤ 0 then
    black
  else
    match env.hit r with
    | some rec =>
      match env.scatter rec r with
      | some (attenuation, scattered) =>
        Vec3.cmul attenuation (rayColor env scattered (depth - 1))
      | none => black
    | none => skyColor env r
termination_by depth.toNat
decreasing_by
  simp only [not_le] at *
  omega

/-- Number of recursive `ray_color` calls (bounces) actually made along the
evaluation of `rayColor env r depth`: the same recursion structure as
`rayColor`, counting one per recursive call. -/
def bounces (env : RTEnv) (r : Ray) (depth : ℤ) : ℕ :=
  if depth ≤ 0 then
    0
  else
    match env.hit r with
    | some rec =>
      match env.scatter rec r with
      | some (_, scattered) => 1 + bounces env scattered (depth - 1)
      | none => 0
    | none => 0
termination_by depth.toNat
decreasing_by
  simp only [not_le] at *
  omega

/-! ## Render configuration constants (`main.cpp:16-25`) -/

/-- Constant `const int image_width = 600;`. -/
def image_width : ℕ := 600

/-- Constant `const int samples_per_pixel_total = 16;`. -/
def samples_per_pixel_total : ℕ := 16

/-- Constant `const int threadCount = 16;`. -/
def threadCount : ℕ := 16

/-- Constant `const int samples_per_pixel = samples_per_pixel_total / threadCount;`
(truncating C++ integer division; both operands are positive, so this is
`Nat` division). -/
def samples_per_pixel : ℕ := samples_per_pixel_total / threadCount

/-- Constant `const auto aspect_ratio = 16.0 / 9.0;` (exact in binary floating
point up to the final rounding; kept as the exact rational, see
`image_height` for why the rounding does not matter here). -/
def aspect_ratio : ℚ := 16 / 9

/-- Constant `const int image_height = static_cast<int>(image_width / aspect_ratio);`:
`600 / (16/9) = 337.5` exactly (and the `double` computation also yields
exactly `337.5`, since `600/(16/9) = 337.5` is representable and both
divisions round to it), truncated toward zero to `337`. -/
def image_height : ℕ := (Int.toNat ⌊(image_width : ℚ) / aspect_ratio⌋)

/-- Constant `const int max_depth = 10;`. -/
def max_depth : ℤ := 10

/-! ## Per-sample image coordinates (`main.cpp:165-166`) -/

/-- The value `auto u = (i + random_double()) / (image_width - 1);` for pixel column
`i` and a jitter draw `jit` from `random_double()`. -/
def uCoord (i : ℕ) (jit : ℚ) : ℚ := ((i : ℚ) + jit) / ((image_width : ℚ) - 1)

/-- The value `auto v = (j + random_double()) / (image_height - 1);` for pixel row
`j` and a jitter draw `jit` from `random_double()`. -/
def vCoord (j : ℕ) (jit : ℚ) : ℚ := ((j : ℚ) + jit) / ((image_height : ℚ) - 1)

/-! ## Progress tracker (`ThreadSafeProgress`, `main.cpp:114-154`) -/

/-- State of the `ThreadSafeProgress` singleton: the per-worker
`linesLeft` vector, the running `Timer`, and `estimatedTime` in seconds.
`Modelled from the spec:` the `Timer` of the absent `timer.h` is modelled
by the wall-clock instant of its last `reset`, so that `getElapsedS()` at
instant `now` is `now - timerStart` and `reset()` sets `timerStart := now`. -/
structure ProgressState where
  linesLeft : List ℤ
  timerStart : ℚ
  estimatedTime : ℚ
  deriving DecidableEq, Repr

/-- The method `ThreadSafeProgress::update(thread, lineCount)` (`main.cpp:128-147`),
evaluated at wall-clock instant `now` (the whole body runs under
`threadProgressMutex`, so it is one atomic state transition):
when `thread == 0`, set `estimatedTime = elapsed * lineCount` and reset the
timer; in every case store `lineCount` in `linesLeft[thread]`.  The
`std::cerr` printing has no effect on the state. -/
def ProgressState.update (s : ProgressState) (thread : ℕ) (lineCount : ℤ)
    (now : ℚ) : ProgressState :=
  let s1 : ProgressState :=
    if thread = 0 then
      { s with estimatedTime := (now - s.timerStart) * (lineCount : ℚ),
               timerStart := now }
    else s
  { s1 with linesLeft := s1.linesLeft.set thread lineCount }

/-! ## Render worker traces (`renderImage`, `main.cpp:156-175`) -/

/-- One scanline of pixel positions as `renderImage` produces them for row
`j`: the inner loop `for (int i = 0; i < image_width; ++i)` pushing one
pixel per column, left to right. -/
def rowTrace (w j : ℕ) : List (ℕ × ℕ) :=
  (List.range w).map (fun i => (i, j))

/-- The sequence of pixel positions `renderImage` pushes into its image
buffer, for a `w × h` image: the outer loop `for (int j = image_height - 1;
j >= 0; --j)` runs rows `h-1, h-2, …, 0`, each row traversed left to
right. -/
def posTrace (w : ℕ) : ℕ → List (ℕ × ℕ)
  | 0 => []
  | h + 1 => rowTrace w h ++ posTrace w h

/-- An observable event of one `renderImage` worker:
`upd j` is the call `ThreadSafeProgress::singleton().update(threadIndex, j)`
at the top of the row-`j` iteration, `px i j` is the
`image->pushPixel(pixel)` for column `i` of row `j`. -/
inductive Event where
  | upd (j : ℕ)
  | px (i j : ℕ)
  deriving DecidableEq, Repr

/-- The row index an event belongs to. -/
def Event.row : Event → ℕ
  | .upd j => j
  | .px _ j => j

/-- Whether an event is a pixel push. -/
def Event.isPx : Event → Bool
  | .upd _ => false
  | .px _ _ => true

/-- The ordered event trace of one `renderImage` worker for a `w × h`
image: for each row `j` from `h-1` down to `0`, first the progress
`update(threadIndex, j)` call, then the `w` pixel pushes of that row. -/
def eventTrace (w : ℕ) : ℕ → List Event
  | 0 => []
  | h + 1 => (Event.upd h :: (List.range w).map (fun i => Event.px i h))
      ++ eventTrace w h

/-- The property claimed of the trace: every `update` call for a row comes
after all of that row's pixel pushes (scanline completion is reported only
once the row is finished). -/
def updateAfterRow (t : List Event) : Prop :=
  ∀ (k1 k2 i j : ℕ),
    t.get? k1 = some (Event.px i j) → t.get? k2 = some (Event.upd j) →
    k1 < k2

/-! ## Scene construction (`random_scene`, `main.cpp:59-112`) -/

/-- A material value as constructed in `main.cpp`: `lambertian(albedo)`,
`metal(albedo, fuzz)` or `dielectric(index_of_refraction)`.  The
`make_shared` sharing is immaterial to the scene's contents. -/
inductive Material where
  | lambertian (albedo : Vec3)
  | metal (albedo : Vec3) (fuzz : ℚ)
  | dielectric (ir : ℚ)
  deriving DecidableEq, Repr

/-- A sphere as added to the `hittable_list`: center, radius, material. -/
structure Sphere where
  center : Vec3
  radius : ℚ
  mat : Material
  deriving DecidableEq, Repr

/-- The grid of `(a, b)` pairs traversed by the two nested loops
`for (int a = -11; a < 11; a++) for (int b = -11; b < 11; b++)`. -/
def sceneGrid : List (ℤ × ℤ) :=
  (List.range 22).flatMap (fun ai : ℕ =>
    (List.range 22).map (fun bi : ℕ => ((ai : ℤ) - 11, (bi : ℤ) - 11)))

/-- The test `(center - point3(4, 0.2, 0)).length() > 0.9` at
`main.cpp:73`, stated on squared lengths: for the candidate center
`(cx, 0.2, cz)` the difference vector is `(cx - 4, 0, cz)`, and since both
sides of the comparison are non-negative, `length > 0.9` holds exactly when
`(cx-4)^2 + cz^2 > 0.81` (squaring is strictly monotone on non-negatives;
stated this way because the square root of a rational is not rational). -/
def farFromBig (cx cz : ℚ) : Prop := (cx - 4)^2 + cz^2 > 81/100

instance (cx cz : ℚ) : Decidable (farFromBig cx cz) := by
  unfold farFromBig
  infer_instance

/-- The small spheres `random_scene` adds while walking `cells`, consuming
the random stream `g` (`random_double()` returns `g n` at the `n`-th draw;
`random_double(lo, hi) = lo + (hi-lo)*random_double()` and
`color::random()` draws three components, per `rtweekend.h`/`vec3.h`,
`Modelled from the spec:` the numeric library's random helpers).  Per cell:
draw `choose_mat`, then the two center jitters; if the center passes the
distance test, add a sphere of radius `0.2` whose material consumes a
further 6 draws (diffuse: two `color::random()`), 4 draws (metal: a
3-component albedo and a fuzz) or 0 draws (glass). -/
def smallSpheres (g : ℕ → ℚ) : List (ℤ × ℤ) → ℕ → List Sphere
  | [], _ => []
  | (a, b) :: cells, n =>
    let choose_mat := g n
    let cx : ℚ := (a : ℚ) + 9/10 * g (n + 1)
    let cz : ℚ := (b : ℚ) + 9/10 * g (n + 2)
    let center : Vec3 := ⟨cx, 1/5, cz⟩
    if farFromBig cx cz then
      if choose_mat < 4/5 then
        let albedo := Vec3.cmul ⟨g (n+3), g (n+4), g (n+5)⟩
          ⟨g (n+6), g (n+7), g (n+8)⟩
        ⟨center, 1/5, Material.lambertian albedo⟩ ::
          smallSpheres g cells (n + 9)
      else if choose_mat < 19/20 then
        let albedo : Vec3 := ⟨1/2 + 1/2 * g (n+3), 1/2 + 1/2 * g (n+4),
          1/2 + 1/2 * g (n+5)⟩
        let fuzz := 1/2 * g (n+6)
        ⟨center, 1/5, Material.metal albedo fuzz⟩ ::
          smallSpheres g cells (n + 7)
      else
        ⟨center, 1/5, Material.dielectric (3/2)⟩ ::
          smallSpheres g cells (n + 3)
    else
      smallSpheres g cells (n + 3)

/-- The ground sphere added first:
`sphere(point3(0,-1000,0), 1000, lambertian(color(0.5,0.5,0.5)))`. -/
def groundSphere : Sphere :=
  ⟨⟨0, -1000, 0⟩, 1000, Material.lambertian ⟨1/2, 1/2, 1/2⟩⟩

/-- The three fixed large spheres added last, in order:
`sphere(point3(0,1,0), 1.0, dielectric(1.5))`,
`sphere(point3(-4,1,0), 1.0, lambertian(color(0.4,0.2,0.1)))`,
`sphere(point3(4,1,0), 1.0, metal(color(0.7,0.6,0.5), 0.0))`. -/
def bigSpheres : List Sphere :=
  [⟨⟨0, 1, 0⟩, 1, Material.dielectric (3/2)⟩,
   ⟨⟨-4, 1, 0⟩, 1, Material.lambertian ⟨2/5, 1/5, 1/10⟩⟩,
   ⟨⟨4, 1, 0⟩, 1, Material.metal ⟨7/10, 3/5, 1/2⟩ 0⟩]

/-- The builder `random_scene()` (`main.cpp:59-112`) as a function of the random
stream `g`: the returned `hittable_list` holds, in insertion order, the
ground sphere, the small spheres the grid walk adds, and the three fixed
large spheres. -/
def random_scene (g : ℕ → ℚ) : List Sphere :=
  groundSphere :: (smallSpheres g sceneGrid 0 ++ bigSpheres)

/-! ## Concrete instances used by witnesses -/

/-- A concrete hit record used to instantiate the abstract environment. -/
def recW : HitRec := ⟨⟨0, 0, 0⟩, ⟨0, 1, 0⟩, 1, true, 0⟩

/-- A concrete scatter result: attenuation `(1/2,1/2,1/2)` and an upward
scattered ray. -/
def scatW : Vec3 × Ray := (⟨1/2, 1/2, 1/2⟩, ⟨⟨0, 0, 0⟩, ⟨0, 1, 0⟩⟩)

/-- A concrete environment in which every ray hits and every material
scatters. -/
def envW : RTEnv := ⟨fun _ => some recW, fun _ _ => some scatW, fun v => v⟩

/-- A concrete environment in which no ray ever hits the scene. -/
def envSky : RTEnv := ⟨fun _ => none, fun _ _ => none, fun v => v⟩

/-- A concrete ray pointing along the x-axis (unit direction has `y = 0`). -/
def rayW : Ray := ⟨⟨0, 0, 0⟩, ⟨1, 0, 0⟩⟩

/-! ## C1-C4: the path tracer -/

/-- C1: with positive depth, when `world.hit` (over `[0.001, infinity)`)
succeeds, `ray_color` returns `attenuation * ray_color(scattered, world,
depth-1)` if the hit material's scatter succeeds, and black if it fails. -/
theorem ray_color_hit_scatter (env : RTEnv) (r : Ray) (d : ℤ) (rec : HitRec)
    (hd : 0 < d) (hh : env.hit r = some rec) :
    rayColor env r d =
      match env.scatter rec r with
      | some (attenuation, scattered) =>
        Vec3.cmul attenuation (rayColor env scattered (d - 1))
      | none => black := by
  rw [rayColor.eq_def, if_neg (by omega), hh]

/-- Witness for C1 at a concrete environment, ray and depth `1`. -/
theorem ray_color_hit_scatter_witness :
    rayColor envW rayW 1 = Vec3.cmul scatW.1 (rayColor envW scatW.2 0) :=
  ray_color_hit_scatter envW rayW 1 recW (by norm_num) rfl

/-- C2: with depth `≤ 0`, `ray_color` returns black, whatever the hit
behaviour of the scene. -/
theorem ray_color_depth_exhausted (env : RTEnv) (r : Ray) (d : ℤ)
    (hd : d ≤ 0) : rayColor env r d = black := by
  rw [rayColor.eq_def, if_pos hd]

/-- Witness for C2 at depth `0` in an environment where the ray does hit. -/
theorem ray_color_depth_exhausted_witness : rayColor envW rayW 0 = black :=
  ray_color_depth_exhausted envW rayW 0 (by norm_num)

/-- C3 (amended: positive depth required): when the ray misses the scene
and the depth is positive, `ray_color` returns the sky gradient
`(1-t)*(1,1,1) + t*(0.5,0.7,1.0)` with `t = 0.5*(unit_direction.y + 1)`;
the right-hand side does not mention `d`, so the colour is the same for
every positive depth. -/
theorem ray_color_no_hit_sky (env : RTEnv) (r : Ray) (d : ℤ)
    (hd : 0 < d) (hh : env.hit r = none) :
    rayColor env r d =
      Vec3.cadd
        (Vec3.csmul (1 - 1/2 * ((env.unitVector r.dir).y + 1)) ⟨1, 1, 1⟩)
        (Vec3.csmul (1/2 * ((env.unitVector r.dir).y + 1)) ⟨1/2, 7/10, 1⟩) := by
  rw [rayColor.eq_def, if_neg (by omega), hh]
  rfl

/-- Witness for C3's amended theorem at depth `1` (and the same colour at
depth `10 = max_depth`, showing depth-independence for positive depths). -/
theorem ray_color_no_hit_sky_witness :
    rayColor envSky rayW 1 =
      Vec3.cadd (Vec3.csmul (1 - 1/2 * ((0:ℚ) + 1)) ⟨1, 1, 1⟩)
        (Vec3.csmul (1/2 * ((0:ℚ) + 1)) ⟨1/2, 7/10, 1⟩) :=
  ray_color_no_hit_sky envSky rayW 1 (by norm_num) rfl

/-- Counterexample to C3 as stated: for a ray that never hits, the claim
asks for the sky-gradient colour at every `max_depth`; at `max_depth = 0`
the code returns black instead, which differs from the sky gradient. -/
theorem ray_color_no_hit_depth0_cex :
    envSky.hit rayW = none ∧
      rayColor envSky rayW 0 ≠ skyColor envSky rayW := by
  refine ⟨rfl, ?_⟩
  rw [rayColor.eq_def]
  simp [skyColor, black, envSky, rayW, Vec3.cadd, Vec3.csmul]

/-- C4: the recursion of `ray_color` terminates after at most
`max(depth, 0)` bounces: `bounces` counts the recursive calls actually made
(each with depth exactly one smaller, none once depth `≤ 0`). -/
theorem ray_color_bounces_le (env : RTEnv) (r : Ray) (d : ℤ) :
    (bounces env r d : ℤ) ≤ max d 0 := by
  suffices H : ∀ (n : ℕ) (env : RTEnv) (r : Ray) (d : ℤ), d.toNat ≤ n →
      (bounces env r d : ℤ) ≤ max d 0 from H d.toNat env r d le_rfl
  intro n
  induction n with
  | zero =>
    intro env r d hn
    have hd : d ≤ 0 := by omega
    rw [bounces.eq_def, if_pos hd]
    simp
  | succ n ih =>
    intro env r d hn
    by_cases hd : d ≤ 0
    · rw [bounces.eq_def, if_pos hd]
      simp
    · rw [bounces.eq_def, if_neg hd]
      rcases hhit : env.hit r with _ | rec
      · show ((0 : ℕ) : ℤ) ≤ max d 0
        simp
      · show ((match env.scatter rec r with
            | some (_, scattered) => 1 + bounces env scattered (d - 1)
            | none => 0 : ℕ) : ℤ) ≤ max d 0
        rcases hsc : env.scatter rec r with _ | ⟨att, sc⟩
        · show ((0 : ℕ) : ℤ) ≤ max d 0
          simp
        · show ((1 + bounces env sc (d - 1) : ℕ) : ℤ) ≤ max d 0
          have hrec := ih env sc (d - 1) (by omega)
          rw [max_eq_left (by omega : (0:ℤ) ≤ d - 1)] at hrec
          rw [max_eq_left (by omega : (0:ℤ) ≤ d)]
          push_cast
          omega

/-! ## C5: the image buffer receives every pixel once, in scanline order -/

/-- Evaluation of the derived constant: the image is `337` rows tall. -/
lemma image_height_eq : image_height = 337 := by
  norm_num [image_height, image_width, aspect_ratio]
  rfl

/-- The strict scanline order on pixel positions: a position precedes
another when its row is rendered earlier (`j` strictly larger, rows being
produced from `j = image_height - 1` — the top row, the one with the larger
viewport coordinate `v` — down to `j = 0`) or when it is strictly to the
left within the same row. -/
def scanOrder (p q : ℕ × ℕ) : Prop :=
  q.2 < p.2 ∨ (p.2 = q.2 ∧ p.1 < q.1)

lemma rowTrace_length (w j : ℕ) : (rowTrace w j).length = w := by
  simp [rowTrace]

lemma mem_rowTrace {w j : ℕ} {p : ℕ × ℕ} :
    p ∈ rowTrace w j ↔ p.1 < w ∧ p.2 = j := by
  rcases p with ⟨i, j'⟩
  simp only [rowTrace, List.mem_map, List.mem_range, Prod.mk.injEq]
  constructor
  · rintro ⟨a, ha, rfl, rfl⟩
    exact ⟨ha, rfl⟩
  · rintro ⟨hi, rfl⟩
    exact ⟨i, hi, rfl, rfl⟩

lemma rowTrace_nodup (w j : ℕ) : (rowTrace w j).Nodup := by
  refine List.Nodup.map ?_ (List.nodup_range w)
  intro a b hab
  simpa using congrArg Prod.fst hab

/-- A list with no duplicates counts each of its members exactly once
(stated for any lawful boolean equality). -/
lemma count_one_of_nodup_mem {α : Type} [BEq α] [LawfulBEq α] {a : α}
    {l : List α} (d : l.Nodup) (h : a ∈ l) : l.count a = 1 := by
  induction l with
  | nil => simp at h
  | cons b t ih =>
    rcases List.mem_cons.mp h with rfl | ht
    · have hnot : a ∉ t := (List.nodup_cons.mp d).1
      rw [List.count_cons_self, List.count_eq_zero.mpr hnot]
    · have hne : a ≠ b := by
        rintro rfl
        exact (List.nodup_cons.mp d).1 ht
      rw [List.count_cons_of_ne hne]
      exact ih (List.nodup_cons.mp d).2 ht

lemma posTrace_length (w h : ℕ) : (posTrace w h).length = h * w := by
  induction h with
  | zero => simp [posTrace]
  | succ h ih =>
    simp [posTrace, rowTrace_length, ih, Nat.succ_mul, Nat.add_comm]

lemma mem_posTrace {w h : ℕ} {p : ℕ × ℕ} :
    p ∈ posTrace w h ↔ p.1 < w ∧ p.2 < h := by
  induction h with
  | zero => simp [posTrace]
  | succ h ih =>
    simp only [posTrace, List.mem_append, ih, mem_rowTrace]
    omega

lemma count_posTrace {w h : ℕ} {i j : ℕ} (hi : i < w) (hj : j < h) :
    (posTrace w h).count (i, j) = 1 := by
  induction h with
  | zero => omega
  | succ h ih =>
    rw [posTrace, List.count_append]
    rcases Nat.lt_or_ge j h with hjh | hjh
    · have h0 : (rowTrace w h).count (i, j) = 0 := by
        apply List.count_eq_zero_of_not_mem
        rw [mem_rowTrace]
        omega
      rw [h0, ih hjh]
    · have hj' : j = h := by omega
      subst hj'
      have h1 : (rowTrace w j).count (i, j) = 1 :=
        count_one_of_nodup_mem (rowTrace_nodup w j)
          (mem_rowTrace.mpr ⟨hi, rfl⟩)
      have h0 : (posTrace w j).count (i, j) = 0 := by
        apply List.count_eq_zero_of_not_mem
        rw [mem_posTrace]
        omega
      rw [h1, h0]

lemma posTrace_pairwise (w h : ℕ) : (posTrace w h).Pairwise scanOrder := by
  induction h with
  | zero => exact List.Pairwise.nil
  | succ h ih =>
    rw [posTrace, List.pairwise_append]
    refine ⟨?_, ih, ?_⟩
    · rw [rowTrace, List.pairwise_map]
      exact (List.pairwise_lt_range w).imp (fun hab => Or.inr ⟨rfl, hab⟩)
    · intro p hp q hq
      left
      have h1 := (mem_rowTrace.mp hp).2
      have h2 := (mem_posTrace.mp hq).2
      omega

/-- C5: in every run of `renderImage`, the image buffer receives exactly
`image_width * image_height` pixels — one per pixel position — appended in
strict scanline order: the rows in the order the worker renders them
(`j = image_height - 1`, the top row, down to `j = 0`), left to right
within each row. -/
theorem renderImage_buffer_invariant :
    (posTrace image_width image_height).length = image_width * image_height ∧
    (∀ i j : ℕ, i < image_width → j < image_height →
      (posTrace image_width image_height).count (i, j) = 1) ∧
    (posTrace image_width image_height).Pairwise scanOrder := by
  refine ⟨?_, fun i j hi hj => count_posTrace hi hj,
    posTrace_pairwise image_width image_height⟩
  rw [posTrace_length, Nat.mul_comm]

/-- Witness for C5 at the concrete pixel position `(0, 0)`. -/
theorem renderImage_buffer_invariant_witness :
    0 < image_width ∧ 0 < image_height ∧
      (posTrace image_width image_height).count (0, 0) = 1 :=
  ⟨by norm_num [image_width], by norm_num [image_height_eq],
    renderImage_buffer_invariant.2.1 0 0 (by norm_num [image_width])
      (by norm_num [image_height_eq])⟩

/-! ## C7: ordering of progress updates and pixel computation -/

/-- The precedence relation the worker's event trace satisfies: an event
comes before another when the other's row is rendered later (smaller row
index), or when both are in the same row iteration and the later one is a
pixel push (the `update` call opens a row iteration). -/
def evRel (e1 e2 : Event) : Prop :=
  e2.row < e1.row ∨ (e1.row = e2.row ∧ e2.isPx = true)

lemma row_of_mem_eventTrace {w h : ℕ} {e : Event}
    (he : e ∈ eventTrace w h) : e.row < h := by
  induction h with
  | zero => simp [eventTrace] at he
  | succ h ih =>
    rw [eventTrace] at he
    rcases List.mem_append.mp he with hseg | htail
    · rcases List.mem_cons.mp hseg with rfl | hpx
      · simp [Event.row]
      · rcases List.mem_map.mp hpx with ⟨i, _, rfl⟩
        simp [Event.row]
    · exact Nat.lt_succ_of_lt (ih htail)

lemma eventTrace_pairwise (w h : ℕ) : (eventTrace w h).Pairwise evRel := by
  induction h with
  | zero => exact List.Pairwise.nil
  | succ h ih =>
    rw [eventTrace, List.pairwise_append]
    refine ⟨?_, ih, ?_⟩
    · rw [List.pairwise_cons]
      constructor
      · intro e he
        rcases List.mem_map.mp he with ⟨i, _, rfl⟩
        exact Or.inr ⟨rfl, rfl⟩
      · rw [List.pairwise_map]
        exact (List.pairwise_lt_range w).imp (fun _ => Or.inr ⟨rfl, rfl⟩)
    · intro a ha b hb
      left
      have hbrow : b.row < h := row_of_mem_eventTrace hb
      have harow : a.row = h := by
        rcases List.mem_cons.mp ha with rfl | hpx
        · rfl
        · rcases List.mem_map.mp hpx with ⟨i, _, rfl⟩
          rfl
      omega

lemma eventTrace_upd_before_px {w h k1 k2 i j : ℕ}
    (h1 : (eventTrace w h).get? k1 = some (Event.upd j))
    (h2 : (eventTrace w h).get? k2 = some (Event.px i j)) : k1 < k2 := by
  obtain ⟨hk1, he1⟩ := List.get?_eq_some.mp h1
  obtain ⟨hk2, he2⟩ := List.get?_eq_some.mp h2
  rw [List.get_eq_getElem] at he1 he2
  have hne : k1 ≠ k2 := by
    rintro rfl
    rw [he1] at he2
    exact Event.noConfusion he2
  rcases Nat.lt_or_ge k1 k2 with hcmp | hcmp
  · exact hcmp
  · have hlt : k2 < k1 := by omega
    have := (List.pairwise_iff_getElem.mp (eventTrace_pairwise w h))
      k2 k1 hk2 hk1 hlt
    rw [he1, he2] at this
    rcases this with hrow | ⟨_, hpx⟩
    · simp [Event.row] at hrow
    · simp [Event.isPx] at hpx

lemma eventTrace_px_before_later_upd {w h k1 k2 i j j' : ℕ} (hj : j < j')
    (h1 : (eventTrace w h).get? k1 = some (Event.px i j'))
    (h2 : (eventTrace w h).get? k2 = some (Event.upd j)) : k1 < k2 := by
  obtain ⟨hk1, he1⟩ := List.get?_eq_some.mp h1
  obtain ⟨hk2, he2⟩ := List.get?_eq_some.mp h2
  rw [List.get_eq_getElem] at he1 he2
  have hne : k1 ≠ k2 := by
    rintro rfl
    rw [he1] at he2
    exact Event.noConfusion he2
  rcases Nat.lt_or_ge k1 k2 with hcmp | hcmp
  · exact hcmp
  · have hlt : k2 < k1 := by omega
    have := (List.pairwise_iff_getElem.mp (eventTrace_pairwise w h))
      k2 k1 hk2 hk1 hlt
    rw [he1, he2] at this
    rcases this with hrow | ⟨hrow, _⟩
    · simp only [Event.row] at hrow
      omega
    · simp only [Event.row] at hrow
      omega

/-- C7 (amended): in `renderImage`'s event trace, the progress `update`
call carrying row `j` happens before that row's pixels are computed (the
call sits at the top of the row loop), and after all pixels of the
previously rendered rows (those with larger row index). -/
theorem renderImage_update_precedes_row_pixels :
    (∀ k1 k2 i j : ℕ,
      (eventTrace image_width image_height).get? k1 = some (Event.upd j) →
      (eventTrace image_width image_height).get? k2 = some (Event.px i j) →
      k1 < k2) ∧
    (∀ k1 k2 i j j' : ℕ, j < j' →
      (eventTrace image_width image_height).get? k1 = some (Event.px i j') →
      (eventTrace image_width image_height).get? k2 = some (Event.upd j) →
      k1 < k2) :=
  ⟨fun _ _ _ _ h1 h2 => eventTrace_upd_before_px h1 h2,
   fun _ _ _ _ _ hj h1 h2 => eventTrace_px_before_later_upd hj h1 h2⟩

set_option maxRecDepth 4000 in
/-- Witness for C7's amended theorem: in the concrete trace, the worker's
very first event is `update(thread, 336)` and the first pixel of row `336`
comes right after it. -/
theorem renderImage_update_precedes_row_pixels_witness :
    (eventTrace image_width image_height).get? 0 = some (Event.upd 336) ∧
    (eventTrace image_width image_height).get? 1 = some (Event.px 0 336) ∧
    (0 : ℕ) < 1 := by
  have h0 : (eventTrace image_width image_height).get? 0 =
      some (Event.upd 336) := by
    rw [image_height_eq]
    rfl
  have h1 : (eventTrace image_width image_height).get? 1 =
      some (Event.px 0 336) := by
    rw [image_height_eq]
    rfl
  exact ⟨h0, h1, renderImage_update_precedes_row_pixels.1 0 1 0 336 h0 h1⟩

set_option maxRecDepth 4000 in
/-- Counterexample to C7 as stated: the claim places each row's `update`
call after that row's pixels, but in the trace the `update` for row `336`
is the very first event, before any pixel of row `336` is computed. -/
theorem renderImage_update_after_row_cex :
    ¬ updateAfterRow (eventTrace image_width image_height) := by
  intro hP
  have h0 : (eventTrace image_width image_height).get? 0 =
      some (Event.upd 336) := by
    rw [image_height_eq]
    rfl
  have h1 : (eventTrace image_width image_height).get? 1 =
      some (Event.px 0 336) := by
    rw [image_height_eq]
    rfl
  exact absurd (hP 1 0 0 336 h1 h0) (by omega)

/-! ## C6: range of the per-sample image coordinates -/

/-- C6 (amended): for pixel positions in range and jitter draws in
`[0, 1)`, the coordinates satisfy `0 ≤ u < image_width/(image_width - 1)`
and `0 ≤ v < image_height/(image_height - 1)` — not `[0, 1)`: at
`i = image_width - 1` the numerator `i + jitter` reaches or exceeds the
denominator, so `u` (resp. `v`) reaches `1` and beyond. -/
theorem uv_coord_bounds (i j : ℕ) (jit jit' : ℚ)
    (hi : i < image_width) (hj : j < image_height)
    (h0 : 0 ≤ jit) (h1 : jit < 1) (h0' : 0 ≤ jit') (h1' : jit' < 1) :
    0 ≤ uCoord i jit ∧
    uCoord i jit < (image_width : ℚ) / ((image_width : ℚ) - 1) ∧
    0 ≤ vCoord j jit' ∧
    vCoord j jit' < (image_height : ℚ) / ((image_height : ℚ) - 1) := by
  have hw : (image_width : ℚ) = 600 := by norm_num [image_width]
  have hhn : image_height = 337 := image_height_eq
  have hh : (image_height : ℚ) = 337 := by rw [hhn]; norm_num
  have hiq : (i : ℚ) ≤ 599 := by
    have hi' : i ≤ 599 := by
      have := hi
      rw [show image_width = 600 from rfl] at this
      omega
    exact_mod_cast hi'
  have hjq : (j : ℚ) ≤ 336 := by
    have hj' : j ≤ 336 := by
      have := hj
      rw [hhn] at this
      omega
    exact_mod_cast hj'
  unfold uCoord vCoord
  rw [hw, hh]
  have hiq0 : (0 : ℚ) ≤ (i : ℚ) := Nat.cast_nonneg i
  have hjq0 : (0 : ℚ) ≤ (j : ℚ) := Nat.cast_nonneg j
  refine ⟨?_, ?_, ?_, ?_⟩
  · apply div_nonneg (by linarith) (by norm_num)
  · rw [div_lt_div_iff₀ (by norm_num) (by norm_num)]
    nlinarith
  · apply div_nonneg (by linarith) (by norm_num)
  · rw [div_lt_div_iff₀ (by norm_num) (by norm_num)]
    nlinarith

/-- Witness for C6's amended theorem at the extreme in-range pixel
`(599, 336)` with jitter `1/2`. -/
theorem uv_coord_bounds_witness :
    0 ≤ uCoord 599 (1/2) ∧
    uCoord 599 (1/2) < (image_width : ℚ) / ((image_width : ℚ) - 1) ∧
    0 ≤ vCoord 336 (1/2) ∧
    vCoord 336 (1/2) < (image_height : ℚ) / ((image_height : ℚ) - 1) :=
  uv_coord_bounds 599 336 (1/2) (1/2) (by norm_num [image_width])
    (by rw [image_height_eq]; norm_num) (by norm_num) (by norm_num)
    (by norm_num) (by norm_num)

/-- Counterexample to C6 as stated: the pixel column `i = 599` is in
range and the jitter draw `0` lies in `[0, 1)`, yet
`u = (599 + 0)/(600 - 1) = 1` is not below `1`, so `u` does not lie in
`[0, 1)`. -/
theorem uv_coord_unit_interval_cex :
    599 < image_width ∧ (0 : ℚ) ≤ 0 ∧ (0 : ℚ) < 1 ∧
      ¬ (uCoord 599 0 < 1) := by
  refine ⟨by norm_num [image_width], le_refl 0, by norm_num, ?_⟩
  have h : uCoord 599 0 = 1 := by
    unfold uCoord
    norm_num [image_width]
  rw [h]
  exact lt_irrefl 1

/-! ## C8: the progress tracker's ETA update -/

/-- C8: `update(thread, lineCount)` at instant `now` recomputes the stored
ETA as `elapsed * lineCount` and resets the timer exactly when
`thread == 0` (other workers leave both untouched), always stores
`lineCount` in that worker's slot, and — given non-negative elapsed time,
remaining count and previous ETA — the stored ETA stays non-negative. -/
theorem progress_update_eta (s : ProgressState) (thread : ℕ) (lc : ℤ)
    (now : ℚ) :
    ((s.update thread lc now).estimatedTime =
      if thread = 0 then (now - s.timerStart) * (lc : ℚ)
      else s.estimatedTime) ∧
    ((s.update thread lc now).timerStart =
      if thread = 0 then now else s.timerStart) ∧
    ((s.update thread lc now).linesLeft = s.linesLeft.set thread lc) ∧
    (s.timerStart ≤ now → 0 ≤ lc → 0 ≤ s.estimatedTime →
      0 ≤ (s.update thread lc now).estimatedTime) := by
  unfold ProgressState.update
  by_cases h : thread = 0
  · simp only [h, if_pos rfl]
    refine ⟨rfl, rfl, rfl, fun h1 h2 _ => ?_⟩
    apply mul_nonneg (by linarith)
    exact_mod_cast h2
  · simp only [if_neg h]
    exact ⟨trivial, trivial, trivial, fun _ _ h3 => h3⟩

/-- Witness for C8: one concrete update by worker `0` from the initial
state, with elapsed time `1` and `5` lines remaining. -/
theorem progress_update_eta_witness :
    0 ≤ ((ProgressState.mk [0] 0 0).update 0 5 1).estimatedTime :=
  (progress_update_eta ⟨[0], 0, 0⟩ 0 5 1).2.2.2 (by norm_num) (by norm_num)
    (le_refl 0)

/-! ## C9: partition of the sample budget across workers -/

/-- C9: every worker renders `samples_per_pixel_total / threadCount`
samples per pixel (truncating integer division — here `16 / 16 = 1`), and
in general a budget of `total` split over `n` workers gives each
`total / n` samples with `total % n` samples of the budget silently
dropped (`n * (total / n) + total % n = total`). -/
theorem samples_per_pixel_division :
    samples_per_pixel = samples_per_pixel_total / threadCount ∧
    samples_per_pixel = 1 ∧
    threadCount * samples_per_pixel =
      samples_per_pixel_total - samples_per_pixel_total % threadCount ∧
    (∀ total n : ℕ, 0 < n → n * (total / n) + total % n = total) :=
  ⟨rfl, rfl, rfl, fun total n _ => Nat.div_add_mod total n⟩

/-- Witness for C9 with a budget (`17`) the worker count (`16`) does not
divide evenly: one sample is dropped. -/
theorem samples_per_pixel_division_witness :
    0 < 16 ∧ 16 * (17 / 16) + 17 % 16 = 17 :=
  ⟨by decide, samples_per_pixel_division.2.2.2 17 16 (by decide)⟩

/-! ## C10: contents of the procedurally built scene -/

lemma smallSpheres_sound (g : ℕ → ℚ) :
    ∀ (cells : List (ℤ × ℤ)) (n : ℕ) (s : Sphere),
      s ∈ smallSpheres g cells n →
      s.radius = 1/5 ∧ s.center.y = 1/5 ∧
        farFromBig s.center.x s.center.z := by
  intro cells
  induction cells with
  | nil =>
    intro n s hs
    simp [smallSpheres] at hs
  | cons c cs ih =>
    rcases c with ⟨a, b⟩
    intro n s hs
    rw [smallSpheres] at hs
    split_ifs at hs with hfar h1 h2
    · rcases List.mem_cons.mp hs with rfl | hs'
      · exact ⟨rfl, rfl, hfar⟩
      · exact ih _ _ hs'
    · rcases List.mem_cons.mp hs with rfl | hs'
      · exact ⟨rfl, rfl, hfar⟩
      · exact ih _ _ hs'
    · rcases List.mem_cons.mp hs with rfl | hs'
      · exact ⟨rfl, rfl, hfar⟩
      · exact ih _ _ hs'
    · exact ih _ _ hs

lemma smallSpheres_length (g : ℕ → ℚ) :
    ∀ (cells : List (ℤ × ℤ)) (n : ℕ),
      (smallSpheres g cells n).length ≤ cells.length := by
  intro cells
  induction cells with
  | nil =>
    intro n
    simp [smallSpheres]
  | cons c cs ih =>
    rcases c with ⟨a, b⟩
    intro n
    rw [smallSpheres]
    split_ifs
    · simpa using Nat.succ_le_succ (ih _)
    · simpa using Nat.succ_le_succ (ih _)
    · simpa using Nat.succ_le_succ (ih _)
    · exact Nat.le_succ_of_le (ih _)

set_option maxRecDepth 4000 in
lemma sceneGrid_length : sceneGrid.length = 484 := by decide

/-- C10: whatever values the random stream delivers, `random_scene`
contains the ground sphere (center `(0,-1000,0)`, radius `1000`, diffuse
albedo `(0.5,0.5,0.5)`) and the three fixed unit spheres (glass at
`(0,1,0)`, diffuse `(0.4,0.2,0.1)` at `(-4,1,0)`, metal with fuzz `0` at
`(4,1,0)`); every small sphere (radius `0.2`) was admitted only with its
center further than `0.9` from `(4, 0.2, 0)` (stated on squared
distances); and the scene holds between `4` and `488 = 4 + 22*22` objects
in total. -/
theorem random_scene_contents (g : ℕ → ℚ) :
    (⟨⟨0, -1000, 0⟩, 1000, Material.lambertian ⟨1/2, 1/2, 1/2⟩⟩ : Sphere) ∈
      random_scene g ∧
    (⟨⟨0, 1, 0⟩, 1, Material.dielectric (3/2)⟩ : Sphere) ∈ random_scene g ∧
    (⟨⟨-4, 1, 0⟩, 1, Material.lambertian ⟨2/5, 1/5, 1/10⟩⟩ : Sphere) ∈
      random_scene g ∧
    (⟨⟨4, 1, 0⟩, 1, Material.metal ⟨7/10, 3/5, 1/2⟩ 0⟩ : Sphere) ∈
      random_scene g ∧
    (∀ s : Sphere, s ∈ random_scene g → s.radius = 1/5 →
      (s.center.x - 4)^2 + (s.center.y - 1/5)^2 + s.center.z^2 > 81/100) ∧
    4 ≤ (random_scene g).length ∧ (random_scene g).length ≤ 488 := by
  refine ⟨List.mem_cons_self _ _, ?_, ?_, ?_, ?_, ?_, ?_⟩
  · exact List.mem_cons_of_mem _
      (List.mem_append_right _ (by simp [bigSpheres]))
  · exact List.mem_cons_of_mem _
      (List.mem_append_right _ (by simp [bigSpheres]))
  · exact List.mem_cons_of_mem _
      (List.mem_append_right _ (by simp [bigSpheres]))
  · intro s hs hrad
    rcases List.mem_cons.mp hs with rfl | hs'
    · rw [show groundSphere.radius = 1000 from rfl] at hrad
      norm_num at hrad
    rcases List.mem_append.mp hs' with hsmall | hbig
    · obtain ⟨_, hy, hfar⟩ := smallSpheres_sound g sceneGrid 0 s hsmall
      have hf : (s.center.x - 4)^2 + s.center.z^2 > 81/100 := hfar
      rw [hy]
      ring_nf
      ring_nf at hf
      linarith
    · simp only [bigSpheres, List.mem_cons, List.not_mem_nil,
        or_false] at hbig
      rcases hbig with rfl | rfl | rfl
      · norm_num at hrad
      · norm_num at hrad
      · norm_num at hrad
  · rw [random_scene]
    simp [bigSpheres]
  · rw [random_scene]
    have h1 := smallSpheres_length g sceneGrid 0
    rw [sceneGrid_length] at h1
    simp only [List.length_cons, List.length_append]
    rw [show bigSpheres.length = 3 from rfl]
    omega

/-- One unfolding of the grid walk: a cell whose jittered center passes
the distance test and whose material draw selects the diffuse branch
contributes the corresponding radius-`0.2` lambertian sphere as the next
element. -/
lemma smallSpheres_cons_diffuse (g : ℕ → ℚ) (a b : ℤ)
    (cells : List (ℤ × ℤ)) (n : ℕ)
    (hfar : farFromBig ((a : ℚ) + 9/10 * g (n+1)) ((b : ℚ) + 9/10 * g (n+2)))
    (hmat : g n < 4/5) :
    smallSpheres g ((a, b) :: cells) n =
      ⟨⟨(a : ℚ) + 9/10 * g (n+1), 1/5, (b : ℚ) + 9/10 * g (n+2)⟩, 1/5,
        Material.lambertian (Vec3.cmul ⟨g (n+3), g (n+4), g (n+5)⟩
          ⟨g (n+6), g (n+7), g (n+8)⟩)⟩ :: smallSpheres g cells (n + 9) := by
  rw [smallSpheres]
  rw [if_pos hfar, if_pos hmat]

/-- Witness for C10 at the all-zeros random stream: the first grid cell
`(-11, -11)` yields a diffuse sphere at `(-11, 0.2, -11)` that is indeed
far from `(4, 0.2, 0)`. -/
theorem random_scene_contents_witness :
    ((⟨⟨-11, 1/5, -11⟩, 1/5, Material.lambertian ⟨0, 0, 0⟩⟩ : Sphere) ∈
      random_scene (fun _ => 0)) ∧
    (((-11 : ℚ) - 4)^2 + ((1/5 : ℚ) - 1/5)^2 + (-11 : ℚ)^2 > 81/100) := by
  have hhead : (⟨⟨((-11 : ℤ) : ℚ) + 9/10 * 0, 1/5,
      ((-11 : ℤ) : ℚ) + 9/10 * 0⟩, 1/5,
      Material.lambertian (Vec3.cmul ⟨0, 0, 0⟩ ⟨0, 0, 0⟩)⟩ : Sphere) =
      ⟨⟨-11, 1/5, -11⟩, 1/5, Material.lambertian ⟨0, 0, 0⟩⟩ := by
    norm_num [Vec3.cmul]
  obtain ⟨rest, hgrid⟩ : ∃ rest : List (ℤ × ℤ),
      sceneGrid = ((-11 : ℤ), (-11 : ℤ)) :: rest := by
    rw [sceneGrid, show (22 : ℕ) = 21 + 1 from rfl,
      List.range_succ_eq_map, List.flatMap_cons, List.map_cons,
      List.cons_append,
      show ((0 : ℕ) : ℤ) - 11 = (-11 : ℤ) from by norm_num]
    exact ⟨_, rfl⟩
  have h1 := smallSpheres_cons_diffuse (fun _ => 0) (-11) (-11)
    rest 0 (by norm_num [farFromBig]) (by norm_num)
  have hmem : (⟨⟨-11, 1/5, -11⟩, 1/5,
      Material.lambertian ⟨0, 0, 0⟩⟩ : Sphere) ∈
      random_scene (fun _ => 0) := by
    rw [random_scene]
    refine List.mem_cons_of_mem _ (List.mem_append_left _ ?_)
    rw [hgrid, h1, hhead]
    exact List.mem_cons_self _ _
  refine ⟨hmem, ?_⟩
  have h2 := (random_scene_contents (fun _ => 0)).2.2.2.2.1
  have h3 := h2 _ hmem rfl
  exact h3

end RT
